import Mathlib

/-!
Shallow embedding of `larsim/MCSTReco/MCRecoPart.cxx` (class `sim::MCRecoPart`):
particle-lineage resolution and fiducial-path extraction.

Machine `unsigned int` values (track ids, positions, the `kINVALID_UINT`
sentinel) are modelled as `Nat`; `double` coordinates as `ℚ` (the source only
compares them with `<` / `>`).  The mutable object state (`this` — a
`std::vector<MCMiniPart>` — together with `_track_index`, `_pdg_list` and the
fiducial bounds) is modelled as the structure `MCRecoPart`, and the one mutating
query (`AncestorTrackID`) is explicit state passing.  The unbounded `while(1)`
loop of `AncestorTrackID` is modelled with fuel, returning `none` when the fuel
is exhausted, so termination within `k` iterations is exactly
`ancestorLoop ... k ... ≠ none`.
-/

namespace MCReco

/-- `::sim::kINVALID_UINT = std::numeric_limits<unsigned int>::max()`. -/
def kINVALID_UINT : Nat := 4294967295

/-- A `TLorentzVector`: x, y, z, t (or px, py, pz, E). -/
structure Vec4 where
  x : ℚ
  y : ℚ
  z : ℚ
  t : ℚ
deriving DecidableEq, Repr

instance : Inhabited Vec4 := ⟨⟨0, 0, 0, 0⟩⟩

/-- Multiply all four components by a factor (`for(size_t i=0; i<4; ++i) vec[i] *= 1.e3`). -/
def Vec4.scale (f : ℚ) (v : Vec4) : Vec4 :=
  ⟨f * v.x, f * v.y, f * v.z, f * v.t⟩

/-- Modelled from the spec: the per-particle record `sim::MCMiniPart`
(ParticleRecord).  Its class definition lives in `MCRecoPart.h`, which is not
among the sources; fields follow the spec's data model: identity, lineage
pointers by id, the write-once ancestor cache (`UNSET` = `kINVALID_UINT`),
daughter-id set, process tag, start/end 4-vectors, provenance tag and the
optional reduced detector path. -/
structure MCMiniPart where
  trackID : Nat
  pdgCode : Int
  mother : Nat
  ancestor : Nat := kINVALID_UINT
  daughters : List Nat
  process : String
  startVtx : Vec4
  startMom : Vec4
  endVtx : Vec4
  endMom : Vec4
  origin : Nat
  detPath : Option (List (Vec4 × Vec4)) := none
deriving DecidableEq, Repr

instance : Inhabited MCMiniPart :=
  ⟨{ trackID := 0, pdgCode := 0, mother := 0, daughters := [], process := "",
     startVtx := ⟨0,0,0,0⟩, startMom := ⟨0,0,0,0⟩, endVtx := ⟨0,0,0,0⟩,
     endMom := ⟨0,0,0,0⟩, origin := 0 }⟩

/-- Modelled from the spec: `MCMiniPart::HasDaughter` — membership of a track id
in the record's daughter set. -/
def MCMiniPart.HasDaughter (p : MCMiniPart) (id : Nat) : Bool :=
  p.daughters.contains id

/-- The input `simb::MCParticle` (external collaborator from `nusimdata`): raw
identity, lineage, process and a full chronological trajectory of
(position, momentum) pairs. -/
structure MCParticle where
  trackId : Nat
  pdgCode : Int
  mother : Nat
  daughters : List Nat
  process : String
  trajectory : List (Vec4 × Vec4)
deriving DecidableEq, Repr

/-- `simb::MCParticle::NumberTrajectoryPoints()`. -/
def MCParticle.NumberTrajectoryPoints (p : MCParticle) : Nat :=
  p.trajectory.length

/-- `simb::MCParticle::Position(i)` — trajectory point `i`'s position. -/
def MCParticle.Position (p : MCParticle) (i : Nat) : Vec4 :=
  (p.trajectory.getD i default).1

/-- `simb::MCParticle::Momentum(i)` — trajectory point `i`'s momentum. -/
def MCParticle.Momentum (p : MCParticle) (i : Nat) : Vec4 :=
  (p.trajectory.getD i default).2

/-- `simb::MCParticle::Position()` — the first trajectory point's position. -/
def MCParticle.StartPosition (p : MCParticle) : Vec4 :=
  p.Position 0

/-- `simb::MCParticle::Momentum()` — the first trajectory point's momentum. -/
def MCParticle.StartMomentum (p : MCParticle) : Vec4 :=
  p.Momentum 0

/-- `simb::MCParticle::EndPosition()` — the last trajectory point's position. -/
def MCParticle.EndPosition (p : MCParticle) : Vec4 :=
  p.Position (p.trajectory.length - 1)

/-- `simb::MCParticle::EndMomentum()` — the last trajectory point's momentum. -/
def MCParticle.EndMomentum (p : MCParticle) : Vec4 :=
  p.Momentum (p.trajectory.length - 1)

/-- The state of a `sim::MCRecoPart` object: the inherited
`std::vector<sim::MCMiniPart>` (`parts`), the `std::map<size_t,size_t>`
`_track_index` (as an association list whose keys stay distinct because
insertion never overwrites), the configured `_pdg_list` and the fiducial
bounds. -/
structure MCRecoPart where
  parts : List MCMiniPart
  trackIndex : List (Nat × Nat)
  pdgList : List Int
  xmin : ℚ
  xmax : ℚ
  ymin : ℚ
  ymax : ℚ
  zmin : ℚ
  zmax : ℚ
deriving DecidableEq, Repr

/-- `std::map::insert` / `try_emplace` semantics: insert the binding only when
the key is absent; an existing binding for the key is never overwritten. -/
def mapInsert (m : List (Nat × Nat)) (k v : Nat) : List (Nat × Nat) :=
  if m.any (fun p => p.1 == k) then m else m ++ [(k, v)]

/-- `std::map::find` semantics on the association list. -/
def mapFind (m : List (Nat × Nat)) (k : Nat) : Option Nat :=
  (m.find? (fun p => p.1 == k)).map (·.2)

/-- Modelled from the spec: `MCRecoPart::TrackToParticleIndex` (declared in
`MCRecoPart.h`, not among the sources) — the LineageIndex lookup from trackId to
position in the ordered collection, returning the `kINVALID_UINT` sentinel when
the trackId is not indexed. -/
def TrackToParticleIndex (s : MCRecoPart) (trackId : Nat) : Nat :=
  match mapFind s.trackIndex trackId with
  | some pos => pos
  | none => kINVALID_UINT

/-- Writing the ancestor cache: `(*this)[part_index].Ancestor(result)`. -/
def setAncestor (s : MCRecoPart) (part_index : Nat) (result : Nat) : MCRecoPart :=
  { s with parts := s.parts.modify (fun p => { p with ancestor := result }) part_index }

/-- `MCRecoPart::MotherTrackID` (MCRecoPart.cxx:42-65): sentinel on
out-of-range; a primary (`Mother() == 0`) is its own mother; an indexed mother
id is returned directly; a dangling mother id falls back to a linear scan for a
record listing this particle as a daughter, else is returned unresolved. -/
def MotherTrackID (s : MCRecoPart) (part_index : Nat) : Nat :=
  if s.parts.length ≤ part_index then kINVALID_UINT
  else
    let part := s.parts.getD part_index default
    let result := part.mother
    if result = 0 then part.trackID
    else if TrackToParticleIndex s result ≠ kINVALID_UINT then result
    else
      match s.parts.find? (fun p => p.HasDaughter part.trackID) with
      | some p => p.trackID
      | none => result

/-- The `while(1)` climb of `MCRecoPart::AncestorTrackID` (MCRecoPart.cxx:83-110),
with fuel: one unit per iteration, `none` when exhausted.  State per iteration:
the current `result` and `mother_index = TrackToParticleIndex(result)`. -/
def ancestorLoop (s : MCRecoPart) : Nat → Nat → Nat → Option Nat
  | 0, _, _ => none
  | fuel + 1, result, mother_index =>
    if mother_index ≠ kINVALID_UINT then
      let new_result := MotherTrackID s mother_index
      if new_result = (s.parts.getD mother_index default).trackID then some result
      else ancestorLoop s fuel new_result (TrackToParticleIndex s new_result)
    else
      match s.parts.find? (fun p => p.HasDaughter result) with
      | some p =>
        if p.trackID = result then some result
        else ancestorLoop s fuel p.trackID (TrackToParticleIndex s p.trackID)
      | none => some result

/-- `MCRecoPart::AncestorTrackID` (MCRecoPart.cxx:68-114): sentinel on
out-of-range; a cached ancestor is returned as-is; a particle whose
`MotherTrackID` is itself (a primary) or `0` returns early without touching the
cache; otherwise the climb loop runs and its result is cached on the queried
record.  Returns the result paired with the post-call object state; `none` when
the loop's fuel ran out. -/
def AncestorTrackID (fuel : Nat) (s : MCRecoPart) (part_index : Nat) :
    Option (Nat × MCRecoPart) :=
  if s.parts.length ≤ part_index then some (kINVALID_UINT, s)
  else
    let part := s.parts.getD part_index default
    if part.ancestor ≠ kINVALID_UINT then some (part.ancestor, s)
    else
      let result := MotherTrackID s part_index
      if result = part.trackID then some (result, s)
      else if result = 0 then some (part.trackID, s)
      else
        match ancestorLoop s fuel result (TrackToParticleIndex s result) with
        | some r => some (r, setAncestor s part_index r)
        | none => none

/-- `MCRecoPart::InDetector` (MCRecoPart.cxx:117-125). -/
def InDetector (s : MCRecoPart) (x y z : ℚ) : Bool :=
  !( x > s.xmax || x < s.xmin ||
     z > s.zmax || z < s.zmin ||
     y > s.ymax || y < s.ymin )

/-- The trajectory indices whose position lies in the detector
(MCRecoPart.cxx:171-177); a filter of `0..N-1`, so ascending and duplicate-free
like the `std::set<size_t> det_path_index`. -/
def containedIndices (s : MCRecoPart) (mcp : MCParticle) : List Nat :=
  (List.range mcp.NumberTrajectoryPoints).filter
    (fun i => InDetector s (mcp.Position i).x (mcp.Position i).y (mcp.Position i).z)

/-- The padding step on the ascending index set (MCRecoPart.cxx:179-185): when
non-empty, insert `min - 1` if `min ≠ 0`; then, only if the set now has more
than one element, insert `max + 1` if it is a valid trajectory index. -/
def padIndices (n : Nat) (l : List Nat) : List Nat :=
  match l with
  | [] => []
  | i :: _ =>
    let l1 := if i ≠ 0 then (i - 1) :: l else l
    if 1 < l1.length then
      match l1.getLast? with
      | some m => if m + 1 < n then l1 ++ [m + 1] else l1
      | none => l1
    else l1

/-- Building one `MCMiniPart` from an input particle and provenance tag
(MCRecoPart.cxx:146-197): copy identity/lineage/process, copy 4-vectors,
scale momenta by 1000, and — when the species is configured of interest and
some trajectory point is contained — store the padded, unit-converted detector
path.  Reads only the bounds and `_pdg_list` from the state. -/
def miniOf (s : MCRecoPart) (mcp : MCParticle) (orig : Nat) : MCMiniPart :=
  { trackID := mcp.trackId
    pdgCode := mcp.pdgCode
    mother := mcp.mother
    ancestor := kINVALID_UINT
    daughters := mcp.daughters
    process := mcp.process
    startVtx := mcp.StartPosition
    startMom := Vec4.scale 1000 mcp.StartMomentum
    endVtx := mcp.EndPosition
    endMom := Vec4.scale 1000 mcp.EndMomentum
    origin := orig
    detPath :=
      if s.pdgList.contains mcp.pdgCode ∧ containedIndices s mcp ≠ [] then
        some ((padIndices mcp.NumberTrajectoryPoints (containedIndices s mcp)).map
          (fun i => (mcp.Position i, Vec4.scale 1000 (mcp.Momentum i))))
      else none }

/-- One iteration of the full-batch loop (MCRecoPart.cxx:138-199): index the
trackId at the next position (no overwrite) and append the converted record. -/
def processParticle (s : MCRecoPart) (mcp : MCParticle) (orig : Nat) : MCRecoPart :=
  { s with trackIndex := mapInsert s.trackIndex mcp.trackId s.parts.length
           parts := s.parts ++ [miniOf s mcp orig] }

/-- One iteration of the dropped-particle loop (MCRecoPart.cxx:202-208):
`try_emplace` the trackId at the next position, then append the record
unconditionally. -/
def addDropped (s : MCRecoPart) (mcmp : MCMiniPart) : MCRecoPart :=
  { s with trackIndex := mapInsert s.trackIndex mcmp.trackID s.parts.length
           parts := s.parts ++ [mcmp] }

/-- `MCRecoPart::AddParticles` (MCRecoPart.cxx:128-209): reject mismatched
particle/origin batch lengths before any mutation; otherwise clear the
collection and index, ingest the full batch in order, then the dropped batch. -/
def AddParticles (s : MCRecoPart) (mcp_v : List MCParticle) (orig_v : List Nat)
    (mcmp_v : List MCMiniPart) : Except String MCRecoPart :=
  if orig_v.length ≠ mcp_v.length then
    Except.error "MCParticle and Origin_t vector size not same!"
  else
    let s0 := { s with parts := [], trackIndex := [] }
    let s1 := (mcp_v.zip orig_v).foldl (fun acc po => processParticle acc po.1 po.2) s0
    Except.ok (mcmp_v.foldl addDropped s1)

/-- The caller-visible state after `AddParticles`: on success the new state, on
a thrown `cet::exception` the object as it was before the call (the throw in
MCRecoPart.cxx:133 precedes every mutation). -/
def runAddParticles (s : MCRecoPart) (mcp_v : List MCParticle) (orig_v : List Nat)
    (mcmp_v : List MCMiniPart) : MCRecoPart :=
  match AddParticles s mcp_v orig_v mcmp_v with
  | Except.ok s2 => s2
  | Except.error _ => s

/-- The spec's own wording of `MotherTrackID` (section 4.3), for refinement
against the source-derived `MotherTrackID`: out of range returns `INVALID`;
`m = 0` returns the particle's own trackId; an `m` that resolves via the index
(an `Option`-valued lookup here, per the spec's "mapping" data model) is
returned directly; a dangling `m` falls back to a linear scan for a record
whose daughter set contains this particle's trackId, else is returned as-is. -/
def MotherTrackID_spec (s : MCRecoPart) (pos : Nat) : Nat :=
  if s.parts.length ≤ pos then kINVALID_UINT
  else
    let part := s.parts.getD pos default
    if part.mother = 0 then part.trackID
    else
      match mapFind s.trackIndex part.mother with
      | some _ => part.mother
      | none =>
        match s.parts.find? (fun p => p.HasDaughter part.trackID) with
        | some p => p.trackID
        | none => part.mother

/-- The index-collection synchronisation invariant: the trackId index maps
every id to the position of its first occurrence in the collection, and to
nothing when the id occurs nowhere. -/
def IndexMatches (s : MCRecoPart) : Prop :=
  ∀ k, mapFind s.trackIndex k = s.parts.findIdx? (fun p => p.trackID == k)

/-- The emitted detector-path index list of the PathReducer. -/
def emittedIndices (s : MCRecoPart) (mcp : MCParticle) : List Nat :=
  padIndices mcp.NumberTrajectoryPoints (containedIndices s mcp)

instance : Inhabited MCParticle :=
  ⟨{ trackId := 0, pdgCode := 0, mother := 0, daughters := [], process := "",
     trajectory := [] }⟩

/-! ### Concrete example states used by witnesses and counterexamples -/

/-- A fiducial box [0,10]×[0,10]×[0,10] with muons (pdg 13) of interest. -/
def exBox : MCRecoPart :=
  { parts := [], trackIndex := [], pdgList := [13],
    xmin := 0, xmax := 10, ymin := 0, ymax := 10, zmin := 0, zmax := 10 }

/-- An input particle with no trajectory, for lineage-only examples. -/
def exP (tid mo : Nat) (ds : List Nat) : MCParticle :=
  { trackId := tid, pdgCode := 22, mother := mo, daughters := ds, process := "X",
    trajectory := [] }

/-- A dropped-particle record with a given trackId. -/
def exDrop (tid : Nat) : MCMiniPart :=
  { trackID := tid, pdgCode := 22, mother := 0, daughters := [], process := "X",
    startVtx := default, startMom := default, endVtx := default, endMom := default,
    origin := 1 }

/-- Full-batch particle with trackId 7 for the duplicate-ingestion examples. -/
def exPart7 : MCParticle := exP 7 0 []

/-- State after ingesting trackId 7 in the full batch and again as a dropped
particle. -/
def exAfterDup : MCRecoPart := runAddParticles exBox [exPart7] [0] [exDrop 7]

/-- State after a full batch that itself repeats trackId 7. -/
def exAfterDoubled : MCRecoPart :=
  runAddParticles exBox [exPart7, exP 8 0 [], exPart7] [0, 0, 0] []

/-- A fully ingested 5-generation chain: primary 1 → 2 → 3 → 4 → 5. -/
def sChain5 : MCRecoPart :=
  runAddParticles exBox
    [exP 1 0 [2], exP 2 1 [3], exP 3 2 [4], exP 4 3 [5], exP 5 4 []]
    [0, 0, 0, 0, 0] []

/-- The chain with the middle record (trackId 3) deliberately missing: its
mother id 3 dangles from the record of trackId 4, but record 2 still lists 3 as
a daughter, so the linear fallback can bridge the gap. -/
def sBroken : MCRecoPart :=
  runAddParticles exBox
    [exP 1 0 [2], exP 2 1 [3], exP 4 3 [5], exP 5 4 []]
    [0, 0, 0, 0] []

/-- A single ingested primary (trackId 1, motherId 0). -/
def sPrimaryOnly : MCRecoPart := runAddParticles exBox [exP 1 0 []] [0] []

/-- A 10-point trajectory of a species of interest where only point 0 is inside
the box: point 0 at (5,5,5), points 1..9 at (20,20,20). -/
def exMcpEdge : MCParticle :=
  { trackId := 9, pdgCode := 13, mother := 0, daughters := [], process := "X",
    trajectory :=
      (⟨5, 5, 5, 0⟩, ⟨1, 1, 1, 1⟩) ::
        (List.replicate 9 ((⟨20, 20, 20, 0⟩, ⟨1, 1, 1, 1⟩) : Vec4 × Vec4)) }

/-- A 10-point trajectory of a species of interest where exactly points 3,4,5
are inside the box. -/
def exMcpMid : MCParticle :=
  { trackId := 9, pdgCode := 13, mother := 0, daughters := [], process := "X",
    trajectory :=
      [ (⟨20, 20, 20, 0⟩, ⟨1, 1, 1, 1⟩), (⟨20, 20, 20, 0⟩, ⟨1, 1, 1, 1⟩),
        (⟨20, 20, 20, 0⟩, ⟨1, 1, 1, 1⟩), (⟨5, 5, 5, 0⟩, ⟨1, 1, 1, 1⟩),
        (⟨6, 6, 6, 0⟩, ⟨1, 1, 1, 1⟩), (⟨7, 7, 7, 0⟩, ⟨1, 1, 1, 1⟩),
        (⟨20, 20, 20, 0⟩, ⟨1, 1, 1, 1⟩), (⟨20, 20, 20, 0⟩, ⟨1, 1, 1, 1⟩),
        (⟨20, 20, 20, 0⟩, ⟨1, 1, 1, 1⟩), (⟨20, 20, 20, 0⟩, ⟨1, 1, 1, 1⟩) ] }

/-! ### Association-list lemmas for the `std::map` model -/

theorem mapFind_append (m1 m2 : List (Nat × Nat)) (k : Nat) :
    mapFind (m1 ++ m2) k = (mapFind m1 k).or (mapFind m2 k) := by
  unfold mapFind
  rw [List.find?_append]
  cases h : List.find? (fun p => p.1 == k) m1 <;>
    simp [Option.none_or, Option.or_some]

theorem isSome_mapFind_iff (m : List (Nat × Nat)) (k : Nat) :
    (mapFind m k).isSome = m.any (fun p => p.1 == k) := by
  unfold mapFind
  cases h : List.find? (fun p => p.1 == k) m with
  | none =>
    have h2 : m.any (fun p => p.1 == k) = false := by
      rw [List.any_eq_false]
      exact List.find?_eq_none.mp h
    simp [h2]
  | some a =>
    simp only [Option.map_some', Option.isSome_some]
    exact (List.any_eq_true.mpr ⟨a, List.mem_of_find?_eq_some h, List.find?_some h⟩).symm

theorem mapInsert_of_found (m : List (Nat × Nat)) (k v : Nat)
    (h : (mapFind m k).isSome) : mapInsert m k v = m := by
  unfold mapInsert
  rw [if_pos]
  rw [← isSome_mapFind_iff]
  exact h

theorem mapInsert_of_not_found (m : List (Nat × Nat)) (k v : Nat)
    (h : mapFind m k = none) : mapInsert m k v = m ++ [(k, v)] := by
  unfold mapInsert
  rw [if_neg]
  rw [← isSome_mapFind_iff, h]
  simp

theorem mapFind_singleton (k1 v k : Nat) :
    mapFind [(k1, v)] k = if k1 == k then some v else none := by
  by_cases h : k1 = k
  · subst h
    simp [mapFind, List.find?]
  · simp [mapFind, List.find?, beq_false_of_ne h]

/-- The index-synchronisation invariant survives one "index at the next
position, then append" step — the shape shared by the full-batch and
dropped-particle loops of `AddParticles`. -/
theorem indexMatches_append_step (m : List (Nat × Nat)) (parts : List MCMiniPart)
    (rec : MCMiniPart)
    (h : ∀ k, mapFind m k = parts.findIdx? (fun p => p.trackID == k)) (k : Nat) :
    mapFind (mapInsert m rec.trackID parts.length) k
      = (parts ++ [rec]).findIdx? (fun p => p.trackID == k) := by
  rw [List.findIdx?_append]
  have hsingle : List.findIdx? (fun p => p.trackID == k) [rec]
      = if rec.trackID == k then some 0 else none := by
    by_cases hr : rec.trackID = k <;> simp [List.findIdx?_cons, hr]
  by_cases hmem : (mapFind m rec.trackID).isSome
  · rw [mapInsert_of_found m _ _ hmem, h k]
    by_cases hk : rec.trackID = k
    · subst hk
      have hsome : (parts.findIdx? (fun p => p.trackID == rec.trackID)).isSome := by
        rw [← h]
        exact hmem
      obtain ⟨i, hi⟩ := Option.isSome_iff_exists.mp hsome
      rw [hi, Option.or_some]
    · have : (rec.trackID == k) = false := beq_false_of_ne hk
      simp [hsingle, this]
  · have hnone : mapFind m rec.trackID = none := by
      cases hc : mapFind m rec.trackID with
      | none => rfl
      | some a => exact absurd (by simp [hc]) hmem
    rw [mapInsert_of_not_found m _ _ hnone, mapFind_append]
    by_cases hk : rec.trackID = k
    · subst hk
      rw [h rec.trackID] at hnone
      rw [h rec.trackID, hnone, mapFind_singleton]
      simp
    · have hb : (rec.trackID == k) = false := beq_false_of_ne hk
      rw [mapFind_singleton, hb, hsingle]
      simp [h k, hb]

/-! ### Structure of the state built by `AddParticles` -/

theorem fold_process_parts (batch : List (MCParticle × Nat)) (acc : MCRecoPart) :
    (batch.foldl (fun a po => processParticle a po.1 po.2) acc).parts
      = acc.parts ++ batch.map (fun po => miniOf acc po.1 po.2) := by
  induction batch generalizing acc with
  | nil => simp
  | cons po rest ih =>
    rw [List.foldl_cons, ih (processParticle acc po.1 po.2)]
    have hc : (fun q : MCParticle × Nat => miniOf (processParticle acc po.1 po.2) q.1 q.2)
        = fun q : MCParticle × Nat => miniOf acc q.1 q.2 := rfl
    rw [hc]
    simp [processParticle]

theorem fold_process_index (batch : List (MCParticle × Nat)) (acc : MCRecoPart)
    (h : IndexMatches acc) :
    IndexMatches (batch.foldl (fun a po => processParticle a po.1 po.2) acc) := by
  induction batch generalizing acc with
  | nil => exact h
  | cons po rest ih =>
    rw [List.foldl_cons]
    refine ih (processParticle acc po.1 po.2) ?_
    intro k
    exact indexMatches_append_step acc.trackIndex acc.parts (miniOf acc po.1 po.2) h k

theorem fold_dropped_parts (batch : List MCMiniPart) (acc : MCRecoPart) :
    (batch.foldl addDropped acc).parts = acc.parts ++ batch := by
  induction batch generalizing acc with
  | nil => simp
  | cons mcmp rest ih =>
    rw [List.foldl_cons, ih (addDropped acc mcmp)]
    simp [addDropped]

theorem fold_dropped_index (batch : List MCMiniPart) (acc : MCRecoPart)
    (h : IndexMatches acc) : IndexMatches (batch.foldl addDropped acc) := by
  induction batch generalizing acc with
  | nil => exact h
  | cons mcmp rest ih =>
    rw [List.foldl_cons]
    refine ih (addDropped acc mcmp) ?_
    intro k
    exact indexMatches_append_step acc.trackIndex acc.parts mcmp h k

/-- Decomposition of a successful `AddParticles` run: the batch lengths agreed,
the resulting collection is the converted full batch followed by the dropped
batch verbatim, and the trackId index maps every id to its first occurrence. -/
theorem addParticles_ok_decomp (s : MCRecoPart) (mcp_v : List MCParticle)
    (orig_v : List Nat) (mcmp_v : List MCMiniPart) (s2 : MCRecoPart)
    (hok : AddParticles s mcp_v orig_v mcmp_v = Except.ok s2) :
    orig_v.length = mcp_v.length ∧
    s2.parts = (mcp_v.zip orig_v).map (fun po => miniOf s po.1 po.2) ++ mcmp_v ∧
    IndexMatches s2 := by
  unfold AddParticles at hok
  by_cases hlen : orig_v.length ≠ mcp_v.length
  · rw [if_pos hlen] at hok
    exact absurd hok (by simp)
  · rw [if_neg hlen] at hok
    rw [not_not] at hlen
    have hs2 : (mcmp_v.foldl addDropped
        ((mcp_v.zip orig_v).foldl (fun acc po => processParticle acc po.1 po.2)
          { s with parts := [], trackIndex := [] })) = s2 := by
      exact Except.ok.inj hok
    have h0 : IndexMatches { s with parts := [], trackIndex := [] } := by
      intro k
      simp [mapFind, IndexMatches]
    refine ⟨hlen, ?_, ?_⟩
    · rw [← hs2, fold_dropped_parts, fold_process_parts]
      have hc : (fun po : MCParticle × Nat =>
          miniOf { s with parts := [], trackIndex := [] } po.1 po.2)
          = fun po : MCParticle × Nat => miniOf s po.1 po.2 := rfl
      rw [hc]
      simp
    · rw [← hs2]
      exact fold_dropped_index mcmp_v _ (fold_process_index (mcp_v.zip orig_v) _ h0)

/-- The record stored at each full-batch position bears that input particle's
trackId. -/
theorem addParticles_trackID_at (s : MCRecoPart) (mcp_v : List MCParticle)
    (orig_v : List Nat) (mcmp_v : List MCMiniPart) (s2 : MCRecoPart)
    (hok : AddParticles s mcp_v orig_v mcmp_v = Except.ok s2)
    (q : Nat) (hq : q < mcp_v.length) :
    (s2.parts.getD q default).trackID = (mcp_v.getD q default).trackId := by
  obtain ⟨hlen, hparts, -⟩ := addParticles_ok_decomp s mcp_v orig_v mcmp_v s2 hok
  have hzlen : (mcp_v.zip orig_v).length = mcp_v.length := by
    rw [List.length_zip, hlen, Nat.min_self]
  have hmlen : ((mcp_v.zip orig_v).map (fun po => miniOf s po.1 po.2)).length
      = mcp_v.length := by
    rw [List.length_map, hzlen]
  have hq2 : q < ((mcp_v.zip orig_v).map (fun po => miniOf s po.1 po.2)).length := by
    rw [hmlen]; exact hq
  have hqz : q < (mcp_v.zip orig_v).length := by rw [hzlen]; exact hq
  rw [hparts, List.getD_eq_getElem _ _ (by simp [hmlen, hq]; omega)]
  rw [List.getElem_append_left hq2]
  rw [List.getElem_map]
  have hzip : (mcp_v.zip orig_v).get ⟨q, hqz⟩ = (mcp_v.get ⟨q, hq⟩, orig_v.get ⟨q, by omega⟩) := by
    simp [List.getElem_zip]
  simp only [List.get_eq_getElem] at hzip
  rw [hzip]
  rw [List.getD_eq_getElem _ _ hq]
  rfl

/-! ### Claim C1 -/

/-- C1 (counterexample): ingesting trackId 7 in the full batch and then again
as a dropped particle leaves trackId 7 at TWO positions of the resulting
collection — the dropped record is still appended (MCRecoPart.cxx:206 runs
unconditionally), so the claim's "occupies exactly one position / adds no new
entry" is false; only the index keeps pointing at the first occurrence. -/
theorem dropped_duplicate_appends_record :
    AddParticles exBox [exPart7] [0] [exDrop 7] = Except.ok exAfterDup ∧
    exAfterDup.parts.length = 2 ∧
    (exAfterDup.parts.getD 0 default).trackID = 7 ∧
    (exAfterDup.parts.getD 1 default).trackID = 7 ∧
    mapFind exAfterDup.trackIndex 7 = some 0 :=
  ⟨rfl, rfl, rfl, rfl, rfl⟩

/-- C1 (amended): after `AddParticles` ingests a full batch followed by a
dropped batch, every input record (full or dropped) is appended, so the
collection has one position per input occurrence — a trackId indexed from the
full batch and repeated in the dropped batch occupies more than one position.
The index and collection stay in sync in this sense: the index maps each
trackId to the position of its FIRST occurrence in the collection (and to
nothing when it occurs nowhere), the record at each indexed position bears that
trackId, and every record's trackId is indexed. -/
theorem addParticles_index_collection_sync (s : MCRecoPart)
    (mcp_v : List MCParticle) (orig_v : List Nat) (mcmp_v : List MCMiniPart)
    (s2 : MCRecoPart) (hok : AddParticles s mcp_v orig_v mcmp_v = Except.ok s2) :
    s2.parts.length = mcp_v.length + mcmp_v.length ∧
    (∀ k, mapFind s2.trackIndex k = s2.parts.findIdx? (fun p => p.trackID == k)) ∧
    (∀ k v, mapFind s2.trackIndex k = some v →
      v < s2.parts.length ∧ (s2.parts.getD v default).trackID = k) ∧
    (∀ p2 ∈ s2.parts, (mapFind s2.trackIndex p2.trackID).isSome) := by
  obtain ⟨hlen, hparts, hidx⟩ := addParticles_ok_decomp s mcp_v orig_v mcmp_v s2 hok
  have hlength : s2.parts.length = mcp_v.length + mcmp_v.length := by
    rw [hparts]
    simp [List.length_zip, hlen]
  refine ⟨hlength, hidx, ?_, ?_⟩
  · intro k v hv
    rw [hidx k] at hv
    obtain ⟨hlt, hpred, -⟩ := List.findIdx?_eq_some_iff_getElem.mp hv
    refine ⟨hlt, ?_⟩
    rw [List.getD_eq_getElem _ _ hlt]
    exact beq_iff_eq.mp hpred
  · intro p2 hp2
    rw [hidx p2.trackID]
    cases hfi : s2.parts.findIdx? (fun p => p.trackID == p2.trackID) with
    | some i => simp
    | none =>
      have := List.findIdx?_eq_none_iff.mp hfi p2 hp2
      simp at this

/-- C1 (witness for the amended theorem), instantiated at the duplicate
trackId-7 ingestion. -/
theorem addParticles_index_collection_sync_witness :
    exAfterDup.parts.length = 1 + 1 :=
  (addParticles_index_collection_sync exBox [exPart7] [0] [exDrop 7]
    exAfterDup rfl).1

/-! ### Claim C9 -/

/-- C9 (confirmed): when the full batch itself repeats a trackId, every
occurrence is appended as its own record, but the index maps the trackId to the
position of the first occurrence — `std::map::insert` at MCRecoPart.cxx:144
never overwrites an existing key. -/
theorem duplicate_trackId_first_write_wins (s : MCRecoPart)
    (mcp_v : List MCParticle) (orig_v : List Nat) (mcmp_v : List MCMiniPart)
    (s2 : MCRecoPart) (t i j : Nat)
    (hok : AddParticles s mcp_v orig_v mcmp_v = Except.ok s2)
    (hij : i < j) (hj : j < mcp_v.length)
    (hit : (mcp_v.getD i default).trackId = t)
    (hjt : (mcp_v.getD j default).trackId = t)
    (hfirst : ∀ i2, i2 < i → (mcp_v.getD i2 default).trackId ≠ t) :
    s2.parts.length = mcp_v.length + mcmp_v.length ∧
    (s2.parts.getD i default).trackID = t ∧
    (s2.parts.getD j default).trackID = t ∧
    mapFind s2.trackIndex t = some i := by
  obtain ⟨hlen, hparts, hidx⟩ := addParticles_ok_decomp s mcp_v orig_v mcmp_v s2 hok
  have hi : i < mcp_v.length := Nat.lt_trans hij hj
  have hlength : s2.parts.length = mcp_v.length + mcmp_v.length := by
    rw [hparts]
    simp [List.length_zip, hlen]
  have hat : ∀ q, q < mcp_v.length → (s2.parts.getD q default).trackID
      = (mcp_v.getD q default).trackId := fun q hq =>
    addParticles_trackID_at s mcp_v orig_v mcmp_v s2 hok q hq
  refine ⟨hlength, by rw [hat i hi, hit], by rw [hat j hj, hjt], ?_⟩
  rw [hidx t]
  apply List.findIdx?_eq_some_iff_getElem.mpr
  have hilt : i < s2.parts.length := by omega
  refine ⟨hilt, ?_, ?_⟩
  · have := hat i hi
    rw [List.getD_eq_getElem _ _ hilt] at this
    rw [this, hit]
    simp
  · intro j2 hj2
    have hj2m : j2 < mcp_v.length := by omega
    have hj2lt : j2 < s2.parts.length := by omega
    have := hat j2 hj2m
    rw [List.getD_eq_getElem _ _ hj2lt] at this
    rw [this]
    simp only [beq_iff_eq]
    exact hfirst j2 hj2

/-- C9 (witness): a full batch repeating trackId 7 at positions 0 and 2. -/
theorem duplicate_trackId_first_write_wins_witness :
    mapFind exAfterDoubled.trackIndex 7 = some 0 :=
  (duplicate_trackId_first_write_wins exBox [exPart7, exP 8 0 [], exPart7]
    [0, 0, 0] [] exAfterDoubled 7 0 2 rfl (by decide) (by decide) rfl rfl
    (fun i2 h => absurd h (by omega))).2.2.2

/-! ### Claim C7 -/

/-- C7 (confirmed): calling `AddParticles` with particle and origin vectors of
different lengths fails with the input-contract exception, and — because the
throw at MCRecoPart.cxx:133 precedes every mutation — the previously ingested
collection and index are left exactly as they were. -/
theorem addParticles_mismatch_error (s : MCRecoPart) (mcp_v : List MCParticle)
    (orig_v : List Nat) (mcmp_v : List MCMiniPart)
    (h : orig_v.length ≠ mcp_v.length) :
    AddParticles s mcp_v orig_v mcmp_v
      = Except.error "MCParticle and Origin_t vector size not same!" ∧
    runAddParticles s mcp_v orig_v mcmp_v = s := by
  have herr : AddParticles s mcp_v orig_v mcmp_v
      = Except.error "MCParticle and Origin_t vector size not same!" := by
    unfold AddParticles
    rw [if_pos h]
  refine ⟨herr, ?_⟩
  unfold runAddParticles
  rw [herr]

/-- C7 (witness): one particle, no origins. -/
theorem addParticles_mismatch_error_witness :
    runAddParticles exBox [exPart7] [] [] = exBox :=
  (addParticles_mismatch_error exBox [exPart7] [] [] (by decide)).2

/-! ### Claim C8 -/

/-- C8 (confirmed): `InDetector` returns true exactly when each coordinate lies
in the closed interval of the corresponding axis of the fiducial box, so
boundary points are inside and points strictly beyond any bound are outside. -/
theorem inDetector_iff_closed_box (s : MCRecoPart) (x y z : ℚ) :
    InDetector s x y z = true ↔
      (s.xmin ≤ x ∧ x ≤ s.xmax ∧ s.ymin ≤ y ∧ y ≤ s.ymax ∧
       s.zmin ≤ z ∧ z ≤ s.zmax) := by
  simp only [InDetector, Bool.or_eq_true, decide_eq_true_eq, Bool.not_eq_true',
    Bool.or_eq_false_iff, decide_eq_false_iff_not, not_lt]
  constructor
  · rintro ⟨⟨⟨⟨⟨h1, h2⟩, h3⟩, h4⟩, h5⟩, h6⟩
    exact ⟨h2, h1, h6, h5, h4, h3⟩
  · rintro ⟨h1, h2, h3, h4, h5, h6⟩
    exact ⟨⟨⟨⟨⟨h2, h1⟩, h6⟩, h5⟩, h4⟩, h3⟩

/-! ### Claim C4 -/

/-- C4 (confirmed): `MotherTrackID` behaves as the spec describes — sentinel
`INVALID` out of range; a primary (`motherId = 0`) returns its own trackId; an
indexed mother id is returned directly; a dangling mother id falls back to the
first record whose daughter set contains this particle's trackId, else is
returned unresolved.  Stated as agreement with `MotherTrackID_spec`, the
definition written from the spec's words; the hypothesis (no stored index
position equals the sentinel) rules out the one degenerate encoding clash
between the source's sentinel lookup and the spec's option-valued mapping. -/
theorem motherTrackID_spec_correct (s : MCRecoPart) (pos : Nat)
    (hvalid : ∀ kv ∈ s.trackIndex, kv.2 ≠ kINVALID_UINT) :
    MotherTrackID s pos = MotherTrackID_spec s pos := by
  simp only [MotherTrackID, MotherTrackID_spec]
  by_cases hlen : s.parts.length ≤ pos
  · rw [if_pos hlen, if_pos hlen]
  · rw [if_neg hlen, if_neg hlen]
    by_cases hm : (s.parts.getD pos default).mother = 0
    · rw [if_pos hm, if_pos hm]
    · rw [if_neg hm, if_neg hm]
      cases hf : mapFind s.trackIndex (s.parts.getD pos default).mother with
      | some v =>
        have hv : v ≠ kINVALID_UINT := by
          unfold mapFind at hf
          cases hfind : List.find?
              (fun p => p.1 == (s.parts.getD pos default).mother) s.trackIndex with
          | none =>
            rw [hfind] at hf
            simp at hf
          | some kv =>
            rw [hfind] at hf
            simp only [Option.map_some', Option.some.injEq] at hf
            rw [← hf]
            exact hvalid kv (List.mem_of_find?_eq_some hfind)
        have hTT : TrackToParticleIndex s (s.parts.getD pos default).mother = v := by
          unfold TrackToParticleIndex
          rw [hf]
        rw [if_pos (by rw [hTT]; exact hv)]
      | none =>
        have hTT : TrackToParticleIndex s (s.parts.getD pos default).mother
            = kINVALID_UINT := by
          unfold TrackToParticleIndex
          rw [hf]
        rw [if_neg (by rw [hTT]; simp)]

/-- C4 (witness), at the ingested 5-generation chain's last record. -/
theorem motherTrackID_spec_correct_witness :
    MotherTrackID sChain5 4 = MotherTrackID_spec sChain5 4 :=
  motherTrackID_spec_correct sChain5 4 (by decide)

/-! ### Claim C5 -/

/-- C5 (confirmed): on the ingested chain 1 → 2 → (3 missing) → 4 → 5, where
the dangling mother id 3 is listed in record 2's daughter set, `AncestorTrackID`
at the last record's position still converges to the primary's trackId 1 via
the linear fallback, and the climb terminates within a number of loop
iterations bounded by the number of records: the fuel granted equals
`sBroken.parts.length = 4` and the loop returns `some` rather than exhausting
it.  The conjuncts also pin the broken-chain shape: trackId 3 is unindexed,
record 4's mother id 3 dangles, and record 2 lists 3 as a daughter. -/
theorem ancestor_broken_chain_converges :
    sBroken.parts.length = 4 ∧
    mapFind sBroken.trackIndex 3 = none ∧
    (sBroken.parts.getD 2 default).mother = 3 ∧
    (sBroken.parts.getD 1 default).HasDaughter 3 = true ∧
    (sBroken.parts.getD 0 default).trackID = 1 ∧
    (sBroken.parts.getD 0 default).mother = 0 ∧
    AncestorTrackID sBroken.parts.length sBroken 3
      = some (1, setAncestor sBroken 3 1) :=
  ⟨rfl, rfl, rfl, rfl, rfl, rfl, rfl⟩

/-! ### Claim C6 -/

/-- C6 (confirmed): on the fully ingested 5-generation maternal chain
1 → 2 → 3 → 4 → 5 (every mother id indexed, the primary's mother id 0),
`AncestorTrackID` at the last record's position returns the primary's trackId 1
(and caches it on that record). -/
theorem ancestor_five_generation_chain :
    sChain5.parts.length = 5 ∧
    (sChain5.parts.getD 0 default).trackID = 1 ∧
    (sChain5.parts.getD 0 default).mother = 0 ∧
    (sChain5.parts.getD 4 default).trackID = 5 ∧
    AncestorTrackID sChain5.parts.length sChain5 4
      = some (1, setAncestor sChain5 4 1) :=
  ⟨rfl, rfl, rfl, rfl, rfl⟩

/-! ### Effect of the ancestor-cache write -/

theorem setAncestor_parts_length (s : MCRecoPart) (p r : Nat) :
    (setAncestor s p r).parts.length = s.parts.length := by
  simp [setAncestor, List.length_modify]

theorem setAncestor_getD_ne (s : MCRecoPart) (p r q : Nat) (hq : q ≠ p) :
    (setAncestor s p r).parts.getD q default = s.parts.getD q default := by
  simp only [setAncestor]
  rw [List.getD_eq_getElem?_getD, List.getD_eq_getElem?_getD, List.getElem?_modify]
  cases s.parts[q]? with
  | none => rfl
  | some a => simp [Ne.symm hq]

theorem setAncestor_getD_self (s : MCRecoPart) (p r : Nat)
    (hp : p < s.parts.length) :
    (setAncestor s p r).parts.getD p default
      = { s.parts.getD p default with ancestor := r } := by
  simp only [setAncestor]
  rw [List.getD_eq_getElem?_getD, List.getElem?_modify,
    List.getElem?_eq_getElem hp]
  rw [List.getD_eq_getElem _ _ hp]
  simp

theorem setAncestor_getD_erased (s : MCRecoPart) (p r : Nat) :
    { (setAncestor s p r).parts.getD p default with ancestor := kINVALID_UINT }
      = { s.parts.getD p default with ancestor := kINVALID_UINT } := by
  by_cases hp : p < s.parts.length
  · rw [setAncestor_getD_self s p r hp]
  · have hnone : s.parts[p]? = none := by
      rw [List.getElem?_eq_none_iff]
      omega
    have h1 : (setAncestor s p r).parts.getD p default = default := by
      simp only [setAncestor]
      rw [List.getD_eq_getElem?_getD, List.getElem?_modify, hnone]
      rfl
    have h2 : s.parts.getD p default = default := by
      rw [List.getD_eq_getElem?_getD, hnone]
      rfl
    rw [h1, h2]

/-! ### Claim C3 -/

/-- C3 (counterexample): for a single ingested primary (motherId 0), the first
`AncestorTrackID` call returns the particle's own trackId 1 but leaves the
state unchanged — the record's ancestorId is still `UNSET` (`kINVALID_UINT`)
rather than the returned value, because the early return at MCRecoPart.cxx:77
skips the cache write at line 112.  This falsifies the claim's "after the first
call returns (including when the particle is a primary whose motherId is 0),
the record's ancestorId is set to the returned value". -/
theorem ancestor_primary_cache_not_written :
    AncestorTrackID 5 sPrimaryOnly 0 = some (1, sPrimaryOnly) ∧
    (sPrimaryOnly.parts.getD 0 default).ancestor = kINVALID_UINT ∧
    kINVALID_UINT ≠ 1 :=
  ⟨rfl, rfl, by decide⟩

/-- C3 (amended): `AncestorTrackID` is idempotent in value and state: a second
call on the post-call state returns the same value and changes nothing.  The
cache is written only when the climb loop runs; the early returns (cached,
primary, zero mother-result) leave the state untouched and the second call
recomputes the same value.  The hypothesis excludes the degenerate case of the
computed ancestor itself equalling the `UNSET` sentinel. -/
theorem ancestorTrackID_idempotent (fuel : Nat) (s : MCRecoPart) (p r : Nat)
    (s2 : MCRecoPart) (h1 : AncestorTrackID fuel s p = some (r, s2))
    (h2 : r ≠ kINVALID_UINT) :
    AncestorTrackID fuel s2 p = some (r, s2) := by
  simp only [AncestorTrackID] at h1 ⊢
  by_cases hlen : s.parts.length ≤ p
  · rw [if_pos hlen] at h1
    simp only [Option.some.injEq, Prod.mk.injEq] at h1
    exact absurd h1.1.symm h2
  · rw [if_neg hlen] at h1
    by_cases hcache : (s.parts.getD p default).ancestor ≠ kINVALID_UINT
    · rw [if_pos hcache] at h1
      simp only [Option.some.injEq, Prod.mk.injEq] at h1
      obtain ⟨hr, hs⟩ := h1
      subst hs
      rw [if_neg hlen, if_pos hcache, hr]
    · rw [if_neg hcache] at h1
      by_cases hprim : MotherTrackID s p = (s.parts.getD p default).trackID
      · rw [if_pos hprim] at h1
        simp only [Option.some.injEq, Prod.mk.injEq] at h1
        obtain ⟨hr, hs⟩ := h1
        subst hs
        rw [if_neg hlen, if_neg hcache, if_pos hprim, hr]
      · rw [if_neg hprim] at h1
        by_cases hzero : MotherTrackID s p = 0
        · rw [if_pos hzero] at h1
          simp only [Option.some.injEq, Prod.mk.injEq] at h1
          obtain ⟨hr, hs⟩ := h1
          subst hs
          rw [if_neg hlen, if_neg hcache, if_neg hprim, if_pos hzero, hr]
        · rw [if_neg hzero] at h1
          cases hloop : ancestorLoop s fuel (MotherTrackID s p)
              (TrackToParticleIndex s (MotherTrackID s p)) with
          | none =>
            rw [hloop] at h1
            exact absurd h1 (by simp)
          | some r0 =>
            rw [hloop] at h1
            simp only [Option.some.injEq, Prod.mk.injEq] at h1
            obtain ⟨hr, hs⟩ := h1
            subst hr
            have hplt : p < s.parts.length := Nat.lt_of_not_le hlen
            rw [if_neg (by rw [← hs, setAncestor_parts_length]; exact hlen)]
            have hget : s2.parts.getD p default
                = { s.parts.getD p default with ancestor := r0 } := by
              rw [← hs]
              exact setAncestor_getD_self s p r0 hplt
            rw [if_pos (by rw [hget]; exact h2), hget]

/-- C3 (witness for the amended theorem): the second call on the chain's last
record reads the cached value 1. -/
theorem ancestorTrackID_idempotent_witness :
    AncestorTrackID 5 (setAncestor sChain5 4 1) 4
      = some (1, setAncestor sChain5 4 1) :=
  ancestorTrackID_idempotent 5 sChain5 4 1 (setAncestor sChain5 4 1) rfl
    (by decide)

/-! ### Claim C10 -/

/-- C10 (confirmed): `AncestorTrackID` mutates at most the ancestorId field of
the queried record: the index, the species list, all six fiducial bounds, the
collection's length, every other record, and every non-ancestor field of the
queried record are unchanged.  (`MotherTrackID` is a `const` member; it is
embedded as a pure function of the state, so it can mutate nothing by
construction.) -/
theorem ancestorTrackID_frame (fuel : Nat) (s : MCRecoPart) (p r : Nat)
    (s2 : MCRecoPart) (h : AncestorTrackID fuel s p = some (r, s2)) :
    s2.trackIndex = s.trackIndex ∧
    s2.pdgList = s.pdgList ∧
    s2.xmin = s.xmin ∧ s2.xmax = s.xmax ∧
    s2.ymin = s.ymin ∧ s2.ymax = s.ymax ∧
    s2.zmin = s.zmin ∧ s2.zmax = s.zmax ∧
    s2.parts.length = s.parts.length ∧
    (∀ q, q ≠ p → s2.parts.getD q default = s.parts.getD q default) ∧
    { s2.parts.getD p default with ancestor := kINVALID_UINT }
      = { s.parts.getD p default with ancestor := kINVALID_UINT } := by
  have hsame : s2 = s ∨ ∃ r0, s2 = setAncestor s p r0 := by
    simp only [AncestorTrackID] at h
    by_cases hlen : s.parts.length ≤ p
    · rw [if_pos hlen] at h
      simp only [Option.some.injEq, Prod.mk.injEq] at h
      exact Or.inl h.2.symm
    · rw [if_neg hlen] at h
      by_cases hcache : (s.parts.getD p default).ancestor ≠ kINVALID_UINT
      · rw [if_pos hcache] at h
        simp only [Option.some.injEq, Prod.mk.injEq] at h
        exact Or.inl h.2.symm
      · rw [if_neg hcache] at h
        by_cases hprim : MotherTrackID s p = (s.parts.getD p default).trackID
        · rw [if_pos hprim] at h
          simp only [Option.some.injEq, Prod.mk.injEq] at h
          exact Or.inl h.2.symm
        · rw [if_neg hprim] at h
          by_cases hzero : MotherTrackID s p = 0
          · rw [if_pos hzero] at h
            simp only [Option.some.injEq, Prod.mk.injEq] at h
            exact Or.inl h.2.symm
          · rw [if_neg hzero] at h
            cases hloop : ancestorLoop s fuel (MotherTrackID s p)
                (TrackToParticleIndex s (MotherTrackID s p)) with
            | none =>
              rw [hloop] at h
              exact absurd h (by simp)
            | some r0 =>
              rw [hloop] at h
              simp only [Option.some.injEq, Prod.mk.injEq] at h
              exact Or.inr ⟨r0, h.2.symm⟩
  rcases hsame with hs | ⟨r0, hs⟩
  · subst hs
    exact ⟨rfl, rfl, rfl, rfl, rfl, rfl, rfl, rfl, rfl, fun q _ => rfl, rfl⟩
  · subst hs
    exact ⟨rfl, rfl, rfl, rfl, rfl, rfl, rfl, rfl,
      setAncestor_parts_length s p r0,
      fun q hq => setAncestor_getD_ne s p r0 q hq,
      setAncestor_getD_erased s p r0⟩

/-- C10 (witness), at the broken-chain climb that writes the cache. -/
theorem ancestorTrackID_frame_witness :
    (setAncestor sBroken 3 1).trackIndex = sBroken.trackIndex :=
  (ancestorTrackID_frame 4 sBroken 3 1 (setAncestor sBroken 3 1) rfl).1

/-! ### PathReducer index-set lemmas -/

theorem containedIndices_sorted (s : MCRecoPart) (mcp : MCParticle) :
    (containedIndices s mcp).Sorted (· < ·) :=
  List.Pairwise.filter _ (List.sorted_lt_range mcp.NumberTrajectoryPoints)

theorem containedIndices_lt (s : MCRecoPart) (mcp : MCParticle) :
    ∀ x ∈ containedIndices s mcp, x < mcp.NumberTrajectoryPoints := by
  intro x hx
  have hx2 := List.mem_of_mem_filter hx
  exact List.mem_range.mp hx2

theorem padIndices_single_zero (n : Nat) : padIndices n [0] = [0] := rfl

theorem getLastD_mem_of_ne_nil (l : List Nat) (hl : l ≠ []) (d : Nat) :
    l.getLastD d ∈ l := by
  rw [List.getLastD_eq_getLast? d l, List.getLast?_eq_getLast l hl]
  exact List.getLast_mem hl

theorem sorted_le_getLastD (l : List Nat) (hs : l.Sorted (· < ·)) (x : Nat)
    (hx : x ∈ l) : ∀ d, x ≤ l.getLastD d := by
  induction l with
  | nil => cases hx
  | cons a t ih =>
    intro d
    rw [List.getLastD_cons]
    rcases List.mem_cons.mp hx with hxa | hxt
    · subst hxa
      cases ht : t with
      | nil => simp
      | cons b t2 =>
        have hmem : t.getLastD x ∈ t := by
          rw [ht]
          exact getLastD_mem_of_ne_nil _ (by simp) x
        rw [← ht]
        exact Nat.le_of_lt (List.rel_of_sorted_cons hs _ hmem)
    · exact ih (List.sorted_cons.mp hs).2 hxt a

/-- The padding step on a non-empty contained-index list other than `[0]`:
left pad `min − 1` when `min ≠ 0`, right pad `max + 1` when it is a valid
index. -/
theorem padIndices_eq_pads (n i : Nat) (t : List Nat) (h0 : i :: t ≠ [0]) :
    padIndices n (i :: t)
      = (if i ≠ 0 then [i - 1] else []) ++ (i :: t) ++
        (if (i :: t).getLastD 0 + 1 < n
         then [(i :: t).getLastD 0 + 1] else []) := by
  by_cases hi : i = 0
  · subst hi
    cases t with
    | nil => exact absurd rfl h0
    | cons b t2 =>
      obtain ⟨m, hm⟩ : ∃ m, (b :: t2).getLast? = some m :=
        ⟨(b :: t2).getLast (by simp), List.getLast?_eq_getLast _ (by simp)⟩
      have hD : (0 :: b :: t2 : List Nat).getLastD 0 = m := by
        rw [List.getLastD_eq_getLast? 0 _, List.getLast?_cons_cons, hm]
        rfl
      simp only [padIndices]
      rw [if_neg (show ¬(0 : Nat) ≠ 0 by simp)]
      rw [if_pos (show 1 < (0 :: b :: t2 : List Nat).length by simp)]
      rw [List.getLast?_cons_cons, hm, hD]
      by_cases hlast : m + 1 < n
      · simp [hlast]
      · simp [hlast]
  · obtain ⟨m, hm⟩ : ∃ m, (i :: t).getLast? = some m :=
      ⟨(i :: t).getLast (by simp), List.getLast?_eq_getLast _ (by simp)⟩
    have hD : (i :: t).getLastD 0 = m := by
      rw [List.getLastD_eq_getLast? 0 _, hm]
      rfl
    simp only [padIndices]
    rw [if_pos hi]
    rw [if_pos (show 1 < ((i - 1) :: i :: t : List Nat).length by simp)]
    rw [List.getLast?_cons_cons, hm, hD]
    by_cases hlast : m + 1 < n
    · simp [hlast, hi]
    · simp [hlast, hi]

/-- The emitted padded index list is ascending. -/
theorem padIndices_sorted (n : Nat) (l : List Nat) (hs : l.Sorted (· < ·))
    (hn : ∀ x ∈ l, x < n) : (padIndices n l).Sorted (· < ·) := by
  cases l with
  | nil => exact List.sorted_nil
  | cons i t =>
    by_cases h0 : i :: t = [0]
    · rw [h0, padIndices_single_zero]
      exact List.sorted_singleton 0
    · rw [padIndices_eq_pads n i t h0, List.append_assoc]
      have hle : ∀ x ∈ i :: t, x ≤ (i :: t).getLastD 0 := fun x hx =>
        sorted_le_getLastD _ hs x hx 0
      have hge : ∀ x ∈ i :: t, i ≤ x := by
        intro x hx
        rcases List.mem_cons.mp hx with hxa | hxt
        · omega
        · exact Nat.le_of_lt (List.rel_of_sorted_cons hs x hxt)
      have hmid : ((i :: t) ++ (if (i :: t).getLastD 0 + 1 < n
          then [(i :: t).getLastD 0 + 1] else [])).Pairwise (· < ·) := by
        apply List.pairwise_append.mpr
        refine ⟨hs, ?_, ?_⟩
        · by_cases hlast : (i :: t).getLastD 0 + 1 < n
          · rw [if_pos hlast]
            exact List.pairwise_singleton _ _
          · rw [if_neg hlast]
            exact List.Pairwise.nil
        · intro a ha b hb
          by_cases hlast : (i :: t).getLastD 0 + 1 < n
          · rw [if_pos hlast] at hb
            have hb2 : b = (i :: t).getLastD 0 + 1 := List.mem_singleton.mp hb
            have := hle a ha
            omega
          · rw [if_neg hlast] at hb
            cases hb
      apply List.pairwise_append.mpr
      refine ⟨?_, hmid, ?_⟩
      · by_cases hi : i ≠ 0
        · rw [if_pos hi]
          exact List.pairwise_singleton _ _
        · rw [if_neg hi]
          exact List.Pairwise.nil
      · intro a ha b hb
        by_cases hi : i ≠ 0
        · rw [if_pos hi] at ha
          have ha2 : a = i - 1 := List.mem_singleton.mp ha
          rcases List.mem_append.mp hb with hbl | hbr
          · have := hge b hbl
            omega
          · by_cases hlast : (i :: t).getLastD 0 + 1 < n
            · rw [if_pos hlast] at hbr
              have hb2 : b = (i :: t).getLastD 0 + 1 := List.mem_singleton.mp hbr
              have := hge _ (getLastD_mem_of_ne_nil (i :: t) (by simp) 0)
              omega
            · rw [if_neg hlast] at hbr
              cases hbr
        · rw [if_neg hi] at ha
          cases ha

/-! ### Claim C2 -/

/-- C2 (counterexample): on a 10-point trajectory of a species of interest
where only point 0 is inside the box, the emitted padded index set is `{0}`,
not the `{0, 1}` the claim states: the right pad at MCRecoPart.cxx:182-184 is
guarded by `det_path_index.size() > 1`, which fails when the contained set is
exactly `{0}` (no left pad was added), so index 1 is never inserted even though
it exists. -/
theorem detPath_single_origin_point_no_right_pad :
    containedIndices exBox exMcpEdge = [0] ∧
    exMcpEdge.NumberTrajectoryPoints = 10 ∧
    emittedIndices exBox exMcpEdge = [0] ∧
    (miniOf exBox exMcpEdge 0).detPath
      = some [(⟨5, 5, 5, 0⟩, Vec4.scale 1000 ⟨1, 1, 1, 1⟩)] :=
  ⟨rfl, rfl, rfl, rfl⟩

/-- C2 (amended): for a species of interest, PathReducer stores no path when no
trajectory point is contained (absent, not empty); otherwise it stores the
(unit-converted) points at the emitted indices, where the emitted list is the
ascending contained indices padded on the left with `min − 1` when `min ≠ 0`
and on the right with `max + 1` when that is a valid trajectory index — EXCEPT
when the contained set is exactly `{0}`: then the `size() > 1` guard skips the
right pad and the emitted list is just `[0]`.  The emitted list is ascending. -/
theorem detPath_padded_indices (s : MCRecoPart) (mcp : MCParticle) (o : Nat)
    (hpdg : s.pdgList.contains mcp.pdgCode = true) :
    (containedIndices s mcp = [] → (miniOf s mcp o).detPath = none) ∧
    (containedIndices s mcp ≠ [] →
      (miniOf s mcp o).detPath
        = some ((emittedIndices s mcp).map
            (fun i => (mcp.Position i, Vec4.scale 1000 (mcp.Momentum i)))) ∧
      (containedIndices s mcp = [0] → emittedIndices s mcp = [0]) ∧
      (∀ i t, containedIndices s mcp = i :: t → containedIndices s mcp ≠ [0] →
        emittedIndices s mcp
          = (if i ≠ 0 then [i - 1] else []) ++ (i :: t) ++
            (if (i :: t).getLastD 0 + 1 < mcp.NumberTrajectoryPoints
             then [(i :: t).getLastD 0 + 1] else [])) ∧
      (emittedIndices s mcp).Sorted (· < ·)) := by
  constructor
  · intro hci
    simp [miniOf, hci]
  · intro hci
    refine ⟨?_, ?_, ?_, ?_⟩
    · simp only [miniOf, emittedIndices]
      rw [if_pos ⟨hpdg, hci⟩]
    · intro h0
      rw [emittedIndices, h0, padIndices_single_zero]
    · intro i t hit h0
      rw [emittedIndices, hit]
      rw [hit] at h0
      exact padIndices_eq_pads mcp.NumberTrajectoryPoints i t h0
    · exact padIndices_sorted mcp.NumberTrajectoryPoints (containedIndices s mcp)
        (containedIndices_sorted s mcp) (containedIndices_lt s mcp)

/-- C2 (witness for the amended theorem): the mid-trajectory example with
points 3,4,5 contained, whose emitted indices are 2,3,4,5,6. -/
theorem detPath_padded_indices_witness :
    (miniOf exBox exMcpMid 0).detPath
      = some ((emittedIndices exBox exMcpMid).map
          (fun i => (exMcpMid.Position i, Vec4.scale 1000 (exMcpMid.Momentum i)))) :=
  ((detPath_padded_indices exBox exMcpMid 0 rfl).2
    (by rw [show containedIndices exBox exMcpMid = [3, 4, 5] from rfl]; simp)).1

end MCReco
